import Mathlib

/-!
Verification of the image-windowing core of pycroscopy
(src/pycroscopy/processing/image_processing.py) via a shallow embedding.

The embedding idealizes numpy floating-point values as exact rationals, but
keeps the special values produced by division (NaN and the infinities) and
the wraparound behaviour of the unsigned integer counter arrays.  Python 2
integer division is modelled by Nat floor division and Int.fdiv.
-/

set_option maxRecDepth 8000

deriving instance DecidableEq for Except

namespace Pycro

/-- Result of a numpy floating computation: a finite value (idealized as an
exact rational), positive infinity, negative infinity, or NaN. -/
inductive FVal where
  | fin (q : ℚ)
  | inf
  | ninf
  | nan
deriving DecidableEq

/-- numpy division semantics for a / b on floats: division by zero yields
NaN when the numerator is zero and a signed infinity otherwise; a nonzero
divisor yields the exact quotient. -/
def npDivVal (a b : ℚ) : FVal :=
  if b = 0 then
    if a = 0 then FVal.nan else if 0 < a then FVal.inf else FVal.ninf
  else FVal.fin (a / b)

/-- Model of the statement image[np.isnan(image)] = 0: NaN entries are
replaced by zero, all other values (including infinities) are kept. -/
def nanToZero : FVal → FVal
  | FVal.nan => FVal.fin 0
  | v => v

/-- Elementwise subtraction original - cleaned used for the removed-noise
output, lifted to the special values. -/
def fvalSub (q : ℚ) : FVal → FVal
  | FVal.fin r => FVal.fin (q - r)
  | FVal.inf => FVal.ninf
  | FVal.ninf => FVal.inf
  | FVal.nan => FVal.nan

/-- np.arange(0, stop, step) over naturals: the multiples of step strictly
below stop, in increasing order.  numpy returns an empty array for a
non-positive stop; a zero step is modelled as the empty list. -/
def arange (stop step : ℕ) : List ℕ :=
  if step = 0 then [] else (List.range ((stop + step - 1) / step)).map (· * step)

/-- Step clamp from do_windowing: win_step = min(dim/4, requested), with
Python 2 integer division. -/
def clampStep (dim reqStep : ℕ) : ℕ := min (dim / 4) reqStep

/-- Window clamp from do_windowing: win = max(2*step, min(dim, requested)). -/
def clampWin (dim step reqWin : ℕ) : ℕ := max (2 * step) (min dim reqWin)

/-- The origin coordinates along one axis, np.arange(0, dim-win+1, step).
The stop expression dim+1-win agrees with the Python int arithmetic for all
inputs (a window larger than the image gives no origins). -/
def stepsList (dim win step : ℕ) : List ℕ := arange (dim + 1 - win) step

/-- The position matrix persisted by do_windowing:
np.array([np.repeat(x_steps, ny), np.tile(y_steps, nx)]).T, which pairs
every x origin (varying slower) with every y origin (varying faster). -/
def winPosMat (xs ys : List ℕ) : List (ℕ × ℕ) :=
  xs.flatMap fun x => ys.map fun y => (x, y)

/-- The full ordered window-origin sequence created and persisted by
do_windowing for a clamped geometry. -/
def doWindowingPositions (imX imY winX winY stepX stepY : ℕ) : List (ℕ × ℕ) :=
  winPosMat (stepsList imX winX stepX) (stepsList imY winY stepY)

/-- np.tile(l, n): n concatenated copies of l. -/
def tileList (l : List ℕ) : ℕ → List ℕ
  | 0 => []
  | n + 1 => l ++ tileList l n

/-- np.repeat(l, n): each element of l repeated n times in place. -/
def repeatEach (l : List ℕ) (n : ℕ) : List ℕ :=
  l.flatMap fun y => List.replicate n y

/-- The window-origin sequence recomputed by build_clean_image:
np.array([np.tile(x_steps, nx), np.repeat(y_steps, ny)]).T.  When nx and ny
differ the two rows have different lengths (nx*nx versus ny*ny) and the
unpacking loop in the source raises, modelled as none. -/
def buildCleanImagePositions (imX imY winX winY stepX stepY : ℕ) : Option (List (ℕ × ℕ)) :=
  let xs := stepsList imX winX stepX
  let ys := stepsList imY winY stepY
  if xs.length = ys.length then
    some ((tileList xs xs.length).zip (repeatEach ys ys.length))
  else none

/-- Whether the window with the given origin covers pixel p, for a window of
size winX by winY. -/
def covers (winX winY : ℕ) (pos p : ℕ × ℕ) : Bool :=
  decide (pos.1 ≤ p.1) && decide (p.1 < pos.1 + winX) &&
    decide (pos.2 ≤ p.2) && decide (p.2 < pos.2 + winY)

/-- True coverage count of pixel p: the number of windows in the position
list whose footprint contains p. -/
def coverage (positions : List (ℕ × ℕ)) (winX winY : ℕ) (p : ℕ × ℕ) : ℕ :=
  positions.countP fun pos => covers winX winY pos p

/-- Accumulated window contributions at pixel p, iterating windows in list
order starting at window index i: each covering window adds its value at the
relative offset of p inside the window. -/
def accumFrom (i : ℕ) (positions : List (ℕ × ℕ)) (winX winY : ℕ)
    (wins : ℕ → ℕ → ℕ → ℚ) (p : ℕ × ℕ) : ℚ :=
  match positions with
  | [] => 0
  | pos :: rest =>
    (if covers winX winY pos p then wins i (p.1 - pos.1) (p.2 - pos.2) else 0) +
      accumFrom (i + 1) rest winX winY wins p

/-- The accumulator array entry at pixel p after the reconstruction loop. -/
def accum (positions : List (ℕ × ℕ)) (winX winY : ℕ)
    (wins : ℕ → ℕ → ℕ → ℚ) (p : ℕ × ℕ) : ℚ :=
  accumFrom 0 positions winX winY wins p

/-- The counts array entry at pixel p after the reconstruction loop, for an
unsigned counter dtype with modulus m (256 for the uint8 counter of
build_clean_image, 2^32 for the uint32 counter of clean_and_build_batch).
Each covering window increments the counter with wraparound. -/
def countsWrap (m : ℕ) (positions : List (ℕ × ℕ)) (winX winY : ℕ) (p : ℕ × ℕ) : ℕ :=
  positions.foldl (fun c pos => if covers winX winY pos p then (c + 1) % m else c) 0

/-- The cleaned-image pixel produced by the overlap-add reconstruction:
accumulated sum divided by the stored (possibly wrapped) count, with the
NaN-to-zero policy applied afterwards. -/
def cleanedWrap (m : ℕ) (positions : List (ℕ × ℕ)) (winX winY : ℕ)
    (wins : ℕ → ℕ → ℕ → ℚ) (p : ℕ × ℕ) : FVal :=
  nanToZero (npDivVal (accum positions winX winY wins p)
    ((countsWrap m positions winX winY p : ℚ)))

/-- Window pixel values reconstructed from a truncated factorization with
nComps components: window i at relative offset (u, v) is the dot product of
row i of U with the column u*winY+v of diag(S) V, matching the row-major
flattening image[this_slice].flatten() used by do_windowing. -/
def svdWins (U : ℕ → ℕ → ℚ) (S : ℕ → ℚ) (V : ℕ → ℕ → ℚ)
    (nComps winY : ℕ) (i u v : ℕ) : ℚ :=
  ((List.range nComps).map fun c => U i c * (S c * V c (u * winY + v))).sum

/-- Python exceptions surfaced by the embedded fragments. -/
inductive PyErr where
  | zeroDivisionError
  | memoryError
  | typeError
  | valueError
deriving DecidableEq

/-- sklearn.utils.gen_batches(n, bs) as used by the reconstruction code:
int(n // bs) full slices of width bs followed by the remainder.  A negative
bs makes the range empty, leaving a single slice covering everything. -/
def batchList (n : ℕ) (bs : ℤ) : List (ℤ × ℤ) :=
  let m : ℕ := (Int.fdiv (n : ℤ) bs).toNat
  let full := (List.range m).map fun i => (Int.ofNat i * bs, (Int.ofNat i + 1) * bs)
  if (m : ℤ) * bs < (n : ℤ) then full ++ [((m : ℤ) * bs, (n : ℤ))] else full

/-- gen_batches with the Python failure mode: a zero batch size raises
ZeroDivisionError when the generator is consumed. -/
def genBatches (n : ℕ) (bs : ℤ) : Except PyErr (List (ℤ × ℤ)) :=
  if bs = 0 then Except.error PyErr.zeroDivisionError else Except.ok (batchList n bs)

/-- The computed batch size free_mem/mem_per_win, Python 2 floor division. -/
def batchSizeOf (freeMem memPerWin : ℤ) : ℤ := Int.fdiv freeMem memPerWin

/-- Batch planning of clean_and_build_batch: the computed batch size is
passed to gen_batches unchanged, with no flooring and no memory check. -/
def cleanAndBuildBatchPlan (freeMem memPerWin : ℤ) (nWins : ℕ) :
    Except PyErr (List (ℤ × ℤ)) :=
  genBatches nWins (batchSizeOf freeMem memPerWin)

/-- Batch planning of clean_and_build_separate_components: a computed batch
size below 1 raises MemoryError before any batch is generated or any window
accumulated. -/
def separateComponentsPlan (freeMem memPerWin : ℤ) (nWins : ℕ) :
    Except PyErr (List (ℤ × ℤ)) :=
  if batchSizeOf freeMem memPerWin < 1 then Except.error PyErr.memoryError
  else genBatches nWins (batchSizeOf freeMem memPerWin)

/-- The component argument accepted by the reconstruction entry points:
Python None, an int, a list or tuple or array of numbers, a dict, a slice
object, or any other object. -/
inductive PyComponents where
  | nothing
  | int (n : ℤ)
  | iter (l : List ℚ)
  | dict
  | sliceObj (lo hi : Option ℤ)
  | other

/-- Canonical component selection produced by the selector: the slice(None)
default, a bounded slice, a passed-through slice object, or an explicit
numpy array of unsigned indices. -/
inductive CompSlice where
  | sliceAll
  | slice (lo hi : ℤ)
  | passSlice (lo hi : Option ℤ)
  | indexArray (l : List ℕ)
deriving DecidableEq

/-- Python int() applied to a number: truncation toward zero, the
T-division of the numerator by the denominator (so -5/2 truncates to -2,
not to the floor -3). -/
def intTrunc (q : ℚ) : ℤ := Int.tdiv q.num (q.den : ℤ)

/-- np.round: round half to even.  The fractional part q - floor q is
compared with one half through the integer quantity
2*(num - floor q * den) versus den, keeping the definition inside integer
arithmetic. -/
def npRound (q : ℚ) : ℤ :=
  if 2 * (q.num - ⌊q⌋ * (q.den : ℤ)) < (q.den : ℤ) then ⌊q⌋
  else if (q.den : ℤ) < 2 * (q.num - ⌊q⌋ * (q.den : ℤ)) then ⌊q⌋ + 1
  else if ⌊q⌋ % 2 = 0 then ⌊q⌋ else ⌊q⌋ + 1

/-- Conversion of an integer to np.uint (uint64): wraparound modulo 2^64. -/
def npUintOf (z : ℤ) : ℕ := (z % ((2 : ℤ) ^ 64)).toNat

/-- The private __get_component_slice dispatch: None keeps slice(None); an
int n gives slice(0, n); an iterable of length 2 gives
slice(int(first), int(second)); any other non-dict iterable becomes
np.uint(np.round(values)) in input order; a slice object passes through;
a dict or anything else raises TypeError. -/
def getComponentSlice : PyComponents → Except PyErr CompSlice
  | PyComponents.nothing => Except.ok CompSlice.sliceAll
  | PyComponents.int n => Except.ok (CompSlice.slice 0 n)
  | PyComponents.iter l =>
    if l.length = 2 then
      Except.ok (CompSlice.slice (intTrunc (l.getD 0 0)) (intTrunc (l.getD 1 0)))
    else
      Except.ok (CompSlice.indexArray (l.map fun q => npUintOf (npRound q)))
  | PyComponents.dict => Except.error PyErr.typeError
  | PyComponents.sliceObj lo hi => Except.ok (CompSlice.passSlice lo hi)
  | PyComponents.other => Except.error PyErr.typeError

/-- Minimum pixel value of an image, np.min over all entries (zero for the
empty image, which numpy rejects before this is used). -/
def imageMin (image : List (List ℚ)) : ℚ :=
  match image.flatten with
  | [] => 0
  | x :: xs => xs.foldl min x

/-- Maximum pixel value of an image, np.max over all entries. -/
def imageMax (image : List (List ℚ)) : ℚ :=
  match image.flatten with
  | [] => 0
  | x :: xs => xs.foldl max x

/-- The normalization step opening window_size_extract:
image = np.float32(h5_main - immin) / (immax - immin).  numpy raises
ValueError taking the min of an empty array; on a flat image the division
by zero produces NaN entries and a warning, not an exception. -/
def windowSizeNormalize (image : List (List ℚ)) : Except PyErr (List (List FVal)) :=
  match image.flatten with
  | [] => Except.error PyErr.valueError
  | _ :: _ =>
    Except.ok (image.map fun row => row.map fun v =>
      npDivVal (v - imageMin image) (imageMax image - imageMin image))

/-- The unbatched cleaned-window matrix of clean_windows:
np.dot(U, np.dot(np.diag(S), V)). -/
def cleanWindowsDirect {n k p : ℕ} (U : Fin n → Fin k → ℚ) (S : Fin k → ℚ)
    (V : Fin k → Fin p → ℚ) : Fin n → Fin p → ℚ :=
  fun i j => ∑ c, U i c * (S c * V c j)

/-- One batched write of clean_windows: rows of the output dataset in the
half-open slice b receive np.dot(U[batch, :], diag(S) V); other rows are
left unchanged. -/
def writeBatch {n k p : ℕ} (U : Fin n → Fin k → ℚ) (S : Fin k → ℚ)
    (V : Fin k → Fin p → ℚ) (st : Fin n → Fin p → ℚ) (b : ℤ × ℤ) :
    Fin n → Fin p → ℚ :=
  fun i j =>
    if b.1 ≤ (i : ℤ) ∧ (i : ℤ) < b.2 then ∑ c, U i c * (S c * V c j) else st i j

/-- The incremental branch of clean_windows: S is pre-multiplied into V and
the rows are written batch by batch over gen_batches(U.shape[0], bs),
starting from the fresh (zero-initialized) output dataset. -/
def cleanWindowsIncremental {n k p : ℕ} (U : Fin n → Fin k → ℚ) (S : Fin k → ℚ)
    (V : Fin k → Fin p → ℚ) (bs : ℤ) : Except PyErr (Fin n → Fin p → ℚ) :=
  (genBatches n bs).map fun slices => slices.foldl (writeBatch U S V) (fun _ _ => 0)

/-- The geometry attributes persisted with a windowed dataset by
do_windowing. -/
structure WinAttrs where
  image_x : ℕ
  image_y : ℕ
  win_x : ℕ
  win_y : ℕ
  win_step_x : ℕ
  win_step_y : ℕ
deriving DecidableEq

/-- Horizontal origins as created by do_windowing from the attributes. -/
def doWindowingXSteps (a : WinAttrs) : List ℕ :=
  arange (a.image_x + 1 - a.win_x) a.win_step_x

/-- Vertical origins as created by do_windowing from the attributes. -/
def doWindowingYSteps (a : WinAttrs) : List ℕ :=
  arange (a.image_y + 1 - a.win_y) a.win_step_y

/-- Horizontal origins recomputed by build_clean_image from the persisted
attributes. -/
def buildCleanImageXSteps (a : WinAttrs) : List ℕ :=
  arange (a.image_x + 1 - a.win_x) a.win_step_x

/-- Vertical origins recomputed by build_clean_image: the source assigns
win_step_y from the win_step_x attribute, so the stride here is
win_step_x. -/
def buildCleanImageYSteps (a : WinAttrs) : List ℕ :=
  arange (a.image_y + 1 - a.win_y) a.win_step_x

/-- Vertical origins recomputed by clean_and_build: same win_step_x read,
and additionally np.arange(0, im_y - win_y, step) without the +1. -/
def cleanAndBuildYSteps (a : WinAttrs) : List ℕ :=
  arange (a.image_y - a.win_y) a.win_step_x

/-- The concrete geometry of an image of 31 by 31 pixels windowed with a
16 by 16 window at step 1: every window covers the centre pixel, so its
coverage is 256. -/
def positions31 : List (ℕ × ℕ) := doWindowingPositions 31 31 16 16 1 1

/-- A window set in which every window is constantly one, as produced by an
exact rank-one factorization of constant windows. -/
def onesWins : ℕ → ℕ → ℕ → ℚ := fun _ _ _ => 1

lemma foldl_wrap_count (m : ℕ) (hm : 0 < m) (f : ℕ × ℕ → Bool) :
    ∀ (l : List (ℕ × ℕ)) (c : ℕ), c < m →
      l.foldl (fun acc pos => if f pos then (acc + 1) % m else acc) c =
        (c + l.countP f) % m := by
  intro l
  induction l with
  | nil =>
    intro c hc
    simp [Nat.mod_eq_of_lt hc]
  | cons a t ih =>
    intro c hc
    by_cases hfa : f a
    · rw [List.foldl_cons, if_pos hfa, ih ((c + 1) % m) (Nat.mod_lt _ hm),
        List.countP_cons_of_pos _ _ hfa, Nat.mod_add_mod]
      congr 1
      omega
    · rw [List.foldl_cons, if_neg hfa, ih c hc,
        List.countP_cons_of_neg _ _ hfa]

lemma countsWrap_eq_mod (m : ℕ) (hm : 0 < m) (positions : List (ℕ × ℕ))
    (winX winY : ℕ) (p : ℕ × ℕ) :
    countsWrap m positions winX winY p = coverage positions winX winY p % m := by
  have h := foldl_wrap_count m hm (fun pos => covers winX winY pos p) positions 0 hm
  simpa [countsWrap, coverage] using h

lemma accumFrom_eq_zero (positions : List (ℕ × ℕ)) (winX winY : ℕ)
    (wins : ℕ → ℕ → ℕ → ℚ) (p : ℕ × ℕ)
    (h : coverage positions winX winY p = 0) :
    ∀ i, accumFrom i positions winX winY wins p = 0 := by
  induction positions with
  | nil => intro i; rfl
  | cons a t ih =>
    intro i
    rw [coverage, List.countP_cons] at h
    by_cases hfa : covers winX winY a p
    · simp [hfa] at h
    · rw [accumFrom, if_neg hfa,
        ih (by simpa [coverage, hfa] using h) (i + 1), zero_add]

lemma accumFrom_ones (positions : List (ℕ × ℕ)) (winX winY : ℕ) (p : ℕ × ℕ) :
    ∀ i, accumFrom i positions winX winY onesWins p =
      (coverage positions winX winY p : ℚ) := by
  induction positions with
  | nil => intro i; simp [accumFrom, coverage]
  | cons a t ih =>
    intro i
    rw [accumFrom, ih (i + 1)]
    simp only [coverage, List.countP_cons]
    by_cases hfa : covers winX winY a p
    · simp only [hfa, if_pos, onesWins]
      push_cast
      ring
    · simp [hfa]

lemma accum_ones (positions : List (ℕ × ℕ)) (winX winY : ℕ) (p : ℕ × ℕ) :
    accum positions winX winY onesWins p = (coverage positions winX winY p : ℚ) :=
  accumFrom_ones positions winX winY p 0

lemma npDivVal_of_ne_zero (a b : ℚ) (hb : b ≠ 0) :
    npDivVal a b = FVal.fin (a / b) := by
  rw [npDivVal, if_neg hb]

lemma npDivVal_zero_zero : npDivVal 0 0 = FVal.nan := by
  rw [npDivVal, if_pos rfl, if_pos rfl]

lemma npDivVal_pos_zero (a : ℚ) (ha : 0 < a) : npDivVal a 0 = FVal.inf := by
  rw [npDivVal, if_pos rfl, if_neg (ne_of_gt ha), if_pos ha]

lemma cleanedWrap_of_cov_zero (m : ℕ) (hm : 0 < m) (positions : List (ℕ × ℕ))
    (winX winY : ℕ) (wins : ℕ → ℕ → ℕ → ℚ) (p : ℕ × ℕ)
    (h : coverage positions winX winY p = 0) :
    cleanedWrap m positions winX winY wins p = FVal.fin 0 := by
  rw [cleanedWrap, accum, accumFrom_eq_zero positions winX winY wins p h 0,
    countsWrap_eq_mod m hm, h]
  simp [npDivVal_zero_zero, nanToZero]

lemma cleanedWrap_of_counts_pos (m : ℕ) (hm : 0 < m) (positions : List (ℕ × ℕ))
    (winX winY : ℕ) (wins : ℕ → ℕ → ℕ → ℚ) (p : ℕ × ℕ)
    (h : 0 < coverage positions winX winY p % m) :
    cleanedWrap m positions winX winY wins p =
      FVal.fin (accum positions winX winY wins p /
        ((coverage positions winX winY p % m : ℕ) : ℚ)) := by
  have hne : ((coverage positions winX winY p % m : ℕ) : ℚ) ≠ 0 :=
    Nat.cast_ne_zero.mpr (Nat.pos_iff_ne_zero.mp h)
  rw [cleanedWrap, countsWrap_eq_mod m hm, npDivVal_of_ne_zero _ _ hne]
  rfl

lemma cleanedWrap_ones (m : ℕ) (hm : 0 < m) (positions : List (ℕ × ℕ))
    (winX winY : ℕ) (p : ℕ × ℕ) (h0 : 0 < coverage positions winX winY p)
    (hlt : coverage positions winX winY p < m) :
    cleanedWrap m positions winX winY onesWins p = FVal.fin 1 := by
  have hne : ((coverage positions winX winY p : ℕ) : ℚ) ≠ 0 :=
    Nat.cast_ne_zero.mpr (Nat.pos_iff_ne_zero.mp h0)
  rw [cleanedWrap, accum_ones, countsWrap_eq_mod m hm, Nat.mod_eq_of_lt hlt,
    npDivVal_of_ne_zero _ _ hne, div_self hne]
  rfl

/-- The geometry do_windowing actually creates for an 8 by 8 image when a
window of 4 and a step of 4 are requested: the step is clamped to
8 / 4 = 2 first, the window stays 4. -/
def positions9 : List (ℕ × ℕ) :=
  doWindowingPositions 8 8 (clampWin 8 (clampStep 8 4) 4)
    (clampWin 8 (clampStep 8 4) 4) (clampStep 8 4) (clampStep 8 4)

/-- U of a rank-one factorization exactly representing constant windows. -/
def onesU : ℕ → ℕ → ℚ := fun _ _ => 1

/-- S of the rank-one constant factorization. -/
def onesS : ℕ → ℚ := fun _ => 1

/-- V of the rank-one constant factorization. -/
def onesV : ℕ → ℕ → ℚ := fun _ _ => 1

lemma svdWins_ones : svdWins onesU onesS onesV 1 4 = onesWins := by
  funext i u v
  simp [svdWins, onesU, onesS, onesV, onesWins]

lemma coverage_positions31 : coverage positions31 16 16 (15, 15) = 256 := by
  decide

lemma cleanedWrap_positions31_inf :
    cleanedWrap 256 positions31 16 16 onesWins (15, 15) = FVal.inf := by
  rw [cleanedWrap, accum_ones, countsWrap_eq_mod 256 (by norm_num),
    coverage_positions31]
  norm_num
  rw [npDivVal_pos_zero _ (by norm_num)]
  rfl

/-- C9: the per-pixel counter of build_clean_image is a uint8 incremented
once per covering window, so the stored count is the true coverage modulo
256; in the step-1 geometry with a 16 by 16 window on a 31 by 31 image the
centre pixel is covered 256 times, its stored count wraps to 0, and the
final division uses the wrapped count, producing infinity instead of the
true average. -/
theorem C9_uint8_wraparound :
    (∀ (positions : List (ℕ × ℕ)) (winX winY : ℕ) (p : ℕ × ℕ),
      countsWrap 256 positions winX winY p =
        coverage positions winX winY p % 256) ∧
    coverage positions31 16 16 (15, 15) = 256 ∧
    countsWrap 256 positions31 16 16 (15, 15) = 0 ∧
    cleanedWrap 256 positions31 16 16 onesWins (15, 15) = FVal.inf :=
  ⟨fun positions winX winY p =>
      countsWrap_eq_mod 256 (by norm_num) positions winX winY p,
    coverage_positions31, by decide, cleanedWrap_positions31_inf⟩

/-- C6, counterexample: a pixel covered by exactly 256 windows has a wrapped
stored count of 0, so the cleaned value is infinity, not the sum of its
window contributions divided by its coverage count. -/
theorem C6_counterexample :
    0 < coverage positions31 16 16 (15, 15) ∧
    cleanedWrap 256 positions31 16 16 onesWins (15, 15) ≠
      FVal.fin (accum positions31 16 16 onesWins (15, 15) /
        (coverage positions31 16 16 (15, 15) : ℚ)) := by
  refine ⟨by decide, ?_⟩
  rw [cleanedWrap_positions31_inf]
  intro h
  exact FVal.noConfusion h

/-- C6, amended: every pixel with zero coverage gets the exact value 0,
never NaN and never an error; every covered pixel equals its contribution
sum divided by the stored coverage count, which is the true count modulo
256 in build_clean_image and modulo 2^32 in clean_and_build_batch, and
equals the true count whenever the latter is below the counter modulus. -/
theorem C6_amended (positions : List (ℕ × ℕ)) (winX winY : ℕ)
    (wins : ℕ → ℕ → ℕ → ℚ) (p : ℕ × ℕ) :
    (coverage positions winX winY p = 0 →
      cleanedWrap 256 positions winX winY wins p = FVal.fin 0 ∧
      cleanedWrap (2 ^ 32) positions winX winY wins p = FVal.fin 0) ∧
    (0 < coverage positions winX winY p % 256 →
      cleanedWrap 256 positions winX winY wins p =
        FVal.fin (accum positions winX winY wins p /
          ((coverage positions winX winY p % 256 : ℕ) : ℚ))) ∧
    (0 < coverage positions winX winY p % 2 ^ 32 →
      cleanedWrap (2 ^ 32) positions winX winY wins p =
        FVal.fin (accum positions winX winY wins p /
          ((coverage positions winX winY p % 2 ^ 32 : ℕ) : ℚ))) :=
  ⟨fun h => ⟨cleanedWrap_of_cov_zero 256 (by norm_num) _ _ _ _ _ h,
      cleanedWrap_of_cov_zero (2 ^ 32) (by norm_num) _ _ _ _ _ h⟩,
    fun h => cleanedWrap_of_counts_pos 256 (by norm_num) _ _ _ _ _ h,
    fun h => cleanedWrap_of_counts_pos (2 ^ 32) (by norm_num) _ _ _ _ _ h⟩

/-- C6, witness: a pixel outside the single window of a concrete geometry
reconstructs to exactly 0 on both counter widths. -/
theorem C6_witness :
    cleanedWrap 256 [(0, 0)] 2 2 (fun _ _ _ => 3) (5, 5) = FVal.fin 0 ∧
    cleanedWrap (2 ^ 32) [(0, 0)] 2 2 (fun _ _ _ => 3) (5, 5) = FVal.fin 0 :=
  (C6_amended [(0, 0)] 2 2 (fun _ _ _ => 3) (5, 5)).1 (by decide)

/-- C2, counterexample: for an 8 by 8 image with requested window 4 and
requested step 4, do_windowing clamps the step to 2 and creates 9 windows,
not the 4 windows claimed. -/
theorem C2_counterexample :
    positions9.length = 9 ∧
    positions9 ≠ [(0, 0), (0, 4), (4, 0), (4, 4)] := by
  refine ⟨by decide, by decide⟩

/-- C2, amended: the clamped geometry yields 9 windows at steps of 2 in
each axis; reconstructing them through the batched path from a rank-one
factorization exactly representing the constant all-ones window yields a
cleaned image that is all ones and a residual that is all zeros at every
pixel. -/
theorem C2_amended :
    positions9 =
      [(0, 0), (0, 2), (0, 4), (2, 0), (2, 2), (2, 4),
        (4, 0), (4, 2), (4, 4)] ∧
    ∀ a b : Fin 8,
      cleanedWrap (2 ^ 32) positions9 4 4 (svdWins onesU onesS onesV 1 4)
          ((a : ℕ), (b : ℕ)) = FVal.fin 1 ∧
      fvalSub 1 (cleanedWrap (2 ^ 32) positions9 4 4
          (svdWins onesU onesS onesV 1 4) ((a : ℕ), (b : ℕ))) = FVal.fin 0 := by
  refine ⟨by decide, ?_⟩
  have hcov : ∀ a b : Fin 8,
      0 < coverage positions9 4 4 ((a : ℕ), (b : ℕ)) ∧
      coverage positions9 4 4 ((a : ℕ), (b : ℕ)) < 2 ^ 32 := by decide
  intro a b
  have h1 : cleanedWrap (2 ^ 32) positions9 4 4
      (svdWins onesU onesS onesV 1 4) ((a : ℕ), (b : ℕ)) = FVal.fin 1 := by
    rw [svdWins_ones]
    exact cleanedWrap_ones (2 ^ 32) (by norm_num) _ _ _ _
      (hcov a b).1 (hcov a b).2
  refine ⟨h1, ?_⟩
  rw [h1]
  simp [fvalSub]

lemma arange_length (stop step : ℕ) (hs : 0 < step) :
    (arange stop step).length = (stop + step - 1) / step := by
  rw [arange, if_neg (Nat.pos_iff_ne_zero.mp hs), List.length_map,
    List.length_range]

lemma stepsList_length (dim win step : ℕ) (hw : win ≤ dim) (hs : 0 < step) :
    (stepsList dim win step).length = (dim - win) / step + 1 := by
  rw [stepsList, arange_length _ _ hs]
  have h1 : dim + 1 - win + step - 1 = dim - win + step := by omega
  rw [h1, Nat.add_div_right _ hs]

/-- C4: for a clamped geometry whose window fits in the image,
do_windowing creates exactly nx times ny windows, with
nx = (W - win_w) / step_w + 1 and ny analogous. -/
theorem C4_window_count (imX imY winX winY sx sy : ℕ)
    (hx : winX ≤ imX) (hy : winY ≤ imY) (hsx : 0 < sx) (hsy : 0 < sy) :
    (doWindowingPositions imX imY winX winY sx sy).length =
      ((imX - winX) / sx + 1) * ((imY - winY) / sy + 1) := by
  rw [doWindowingPositions, winPosMat, List.length_flatMap]
  simp only [Function.comp_def, List.length_map, List.map_const',
    List.sum_const_nat]
  rw [stepsList_length _ _ _ hx hsx, stepsList_length _ _ _ hy hsy]

/-- C4, witness: the 8 by 8 image with window 4 and step 2 has 9 windows. -/
theorem C4_witness :
    (doWindowingPositions 8 8 4 4 2 2).length =
      ((8 - 4) / 2 + 1) * ((8 - 4) / 2 + 1) :=
  C4_window_count 8 8 4 4 2 2 (by norm_num) (by norm_num) (by norm_num)
    (by norm_num)

/-- C3, counterexample: with a memory budget giving computed batch size 0,
the component-separated path raises MemoryError before any accumulation,
but the single-channel batched path does not floor the batch size to 1 and
proceed: it fails with ZeroDivisionError inside batch generation.  The
third conjunct shows what flooring to 1 would have produced instead. -/
theorem C3_counterexample :
    separateComponentsPlan 50 100 5 = Except.error PyErr.memoryError ∧
    cleanAndBuildBatchPlan 50 100 5 = Except.error PyErr.zeroDivisionError ∧
    genBatches 5 1 = Except.ok [(0, 1), (1, 2), (2, 3), (3, 4), (4, 5)] := by
  refine ⟨by decide, by decide, by decide⟩

/-- C3, amended: when the computed batch size is below 1 the
component-separated path raises MemoryError before any batch is generated;
the single-channel path applies no flooring: a computed batch size of 0
fails with ZeroDivisionError in gen_batches, and a negative one degenerates
to a single batch containing every window. -/
theorem C3_amended (freeMem memPerWin : ℤ) (nWins : ℕ) (hwins : 0 < nWins) :
    (batchSizeOf freeMem memPerWin < 1 →
      separateComponentsPlan freeMem memPerWin nWins =
        Except.error PyErr.memoryError) ∧
    (batchSizeOf freeMem memPerWin = 0 →
      cleanAndBuildBatchPlan freeMem memPerWin nWins =
        Except.error PyErr.zeroDivisionError) ∧
    (batchSizeOf freeMem memPerWin < 0 →
      cleanAndBuildBatchPlan freeMem memPerWin nWins =
        Except.ok [(0, (nWins : ℤ))]) := by
  refine ⟨fun h => ?_, fun h => ?_, fun h => ?_⟩
  · rw [separateComponentsPlan, if_pos h]
  · rw [cleanAndBuildBatchPlan, genBatches, if_pos h]
  · rw [cleanAndBuildBatchPlan, genBatches, if_neg (by omega)]
    have hm : (Int.fdiv (nWins : ℤ) (batchSizeOf freeMem memPerWin)).toNat = 0 :=
      Int.toNat_eq_zero.mpr
        (Int.fdiv_nonpos (Int.ofNat_nonneg nWins) (le_of_lt h))
    simp only [batchList, hm, List.range_zero, List.map_nil, Nat.cast_zero,
      zero_mul, List.nil_append]
    rw [if_pos (by exact_mod_cast hwins)]

/-- C3, witness: a negative computed batch size makes the batched path run
everything as one batch instead of failing or flooring. -/
theorem C3_witness :
    cleanAndBuildBatchPlan (-50) 100 5 = Except.ok [(0, (5 : ℤ))] :=
  (C3_amended (-50) 100 5 (by norm_num)).2.2 (by decide)

lemma intTrunc_toward_zero :
    intTrunc (Rat.mk' (-5) 2) = -2 ∧ intTrunc (Rat.mk' 5 2) = 2 := by
  refine ⟨by decide, by decide⟩

/-- C5, counterexample: a non-length-2 iterable is converted in input
order, so [7, 1, 4] yields the index array [7, 1, 4] and not the ascending
set written as [1, 4, 7]. -/
theorem C5_counterexample :
    getComponentSlice (PyComponents.iter [7, 1, 4]) =
      Except.ok (CompSlice.indexArray [7, 1, 4]) ∧
    getComponentSlice (PyComponents.iter [7, 1, 4]) ≠
      Except.ok (CompSlice.indexArray [1, 4, 7]) := by
  refine ⟨by decide, by decide⟩

/-- C5, amended: the selector maps None to the all-components slice, an
integer n to the slice from 0 to n, a 2-element iterable to the slice of
its truncated endpoints, any other non-dict iterable to the explicit array
of its values rounded to the nearest integer (half to even) and cast to
unsigned, kept in input order; a slice object passes through unchanged and
every other input fails with TypeError before any reconstruction work.
The examples of the claim hold: 3 gives the slice from 0 to 3, the pair
(2, 5) gives the slice from 2 to 5, and [1, 4, 7] gives exactly the array
[1, 4, 7]. -/
theorem C5_amended :
    getComponentSlice PyComponents.nothing = Except.ok CompSlice.sliceAll ∧
    (∀ n : ℤ, getComponentSlice (PyComponents.int n) =
      Except.ok (CompSlice.slice 0 n)) ∧
    (∀ l : List ℚ, getComponentSlice (PyComponents.iter l) =
      if l.length = 2 then
        Except.ok (CompSlice.slice (intTrunc (l.getD 0 0))
          (intTrunc (l.getD 1 0)))
      else
        Except.ok (CompSlice.indexArray
          (l.map fun q => npUintOf (npRound q)))) ∧
    (∀ lo hi : Option ℤ, getComponentSlice (PyComponents.sliceObj lo hi) =
      Except.ok (CompSlice.passSlice lo hi)) ∧
    getComponentSlice PyComponents.dict = Except.error PyErr.typeError ∧
    getComponentSlice PyComponents.other = Except.error PyErr.typeError ∧
    getComponentSlice (PyComponents.int 3) =
      Except.ok (CompSlice.slice 0 3) ∧
    getComponentSlice (PyComponents.iter [2, 5]) =
      Except.ok (CompSlice.slice 2 5) ∧
    getComponentSlice (PyComponents.iter [1, 4, 7]) =
      Except.ok (CompSlice.indexArray [1, 4, 7]) := by
  refine ⟨rfl, fun n => rfl, fun l => rfl, fun lo hi => rfl, rfl, rfl, rfl,
    by decide, by decide⟩

lemma foldl_min_le_init (xs : List ℚ) : ∀ x : ℚ, xs.foldl min x ≤ x := by
  induction xs with
  | nil => intro x; exact le_refl x
  | cons a t ih => intro x; exact le_trans (ih (min x a)) (min_le_left x a)

lemma foldl_min_le_mem (xs : List ℚ) :
    ∀ (x v : ℚ), v ∈ xs → xs.foldl min x ≤ v := by
  induction xs with
  | nil => intro x v hv; cases hv
  | cons a t ih =>
    intro x v hv
    rcases List.mem_cons.mp hv with h | h
    · subst h
      exact le_trans (foldl_min_le_init t (min x v)) (min_le_right x v)
    · exact ih (min x a) v h

lemma le_foldl_max_init (xs : List ℚ) : ∀ x : ℚ, x ≤ xs.foldl max x := by
  induction xs with
  | nil => intro x; exact le_refl x
  | cons a t ih => intro x; exact le_trans (le_max_left x a) (ih (max x a))

lemma le_foldl_max_mem (xs : List ℚ) :
    ∀ (x v : ℚ), v ∈ xs → v ≤ xs.foldl max x := by
  induction xs with
  | nil => intro x v hv; cases hv
  | cons a t ih =>
    intro x v hv
    rcases List.mem_cons.mp hv with h | h
    · subst h
      exact le_trans (le_max_right x v) (le_foldl_max_init t (max x v))
    · exact ih (max x a) v h

lemma imageMin_le (image : List (List ℚ)) (x : ℚ) (xs : List ℚ)
    (hf : image.flatten = x :: xs) :
    ∀ v ∈ image.flatten, imageMin image ≤ v := by
  intro v hv
  rw [imageMin, hf]
  rw [hf] at hv
  rcases List.mem_cons.mp hv with h | h
  · subst h; exact foldl_min_le_init xs v
  · exact foldl_min_le_mem xs x v h

lemma le_imageMax (image : List (List ℚ)) (x : ℚ) (xs : List ℚ)
    (hf : image.flatten = x :: xs) :
    ∀ v ∈ image.flatten, v ≤ imageMax image := by
  intro v hv
  rw [imageMax, hf]
  rw [hf] at hv
  rcases List.mem_cons.mp hv with h | h
  · subst h; exact le_foldl_max_init xs v
  · exact le_foldl_max_mem xs x v h

lemma windowSizeNormalize_flat (image : List (List ℚ)) (x : ℚ) (xs : List ℚ)
    (hf : image.flatten = x :: xs) (hflat : imageMax image = imageMin image) :
    windowSizeNormalize image =
      Except.ok (image.map fun row => row.map fun _ => FVal.nan) := by
  rw [windowSizeNormalize, hf]
  refine congrArg Except.ok ?_
  apply List.map_congr_left
  intro row hrow
  apply List.map_congr_left
  intro v hv
  have hvmem : v ∈ image.flatten := List.mem_flatten.mpr ⟨row, hrow, hv⟩
  have heq : v = imageMin image :=
    le_antisymm (hflat ▸ le_imageMax image x xs hf v hvmem)
      (imageMin_le image x xs hf v hvmem)
  rw [heq, sub_self, hflat, sub_self, npDivVal_zero_zero]

/-- C7, counterexample: on a flat image window_size_extract does not fail;
the normalization divides zero by zero at every pixel, silently producing a
grid of NaN values. -/
theorem C7_counterexample :
    windowSizeNormalize [[5, 5], [5, 5]] =
      Except.ok [[FVal.nan, FVal.nan], [FVal.nan, FVal.nan]] := by
  rw [windowSizeNormalize_flat [[5, 5], [5, 5]] 5 [5, 5, 5] (by norm_num)
    (by norm_num [imageMax, imageMin])]
  rfl

/-- C7, amended: window_size_extract first normalizes a non-flat image to
the unit interval as (image - min) / (max - min); a flat image with
max = min is not rejected: every pixel becomes NaN through a zero-by-zero
division. -/
theorem C7_amended (image : List (List ℚ)) (x : ℚ) (xs : List ℚ)
    (hf : image.flatten = x :: xs) :
    (imageMax image = imageMin image →
      windowSizeNormalize image =
        Except.ok (image.map fun row => row.map fun _ => FVal.nan)) ∧
    (imageMax image ≠ imageMin image →
      windowSizeNormalize image =
        Except.ok (image.map fun row => row.map fun v =>
          FVal.fin ((v - imageMin image) /
            (imageMax image - imageMin image)))) := by
  refine ⟨windowSizeNormalize_flat image x xs hf, fun hne => ?_⟩
  rw [windowSizeNormalize, hf]
  refine congrArg Except.ok ?_
  apply List.map_congr_left
  intro row hrow
  apply List.map_congr_left
  intro v hv
  exact npDivVal_of_ne_zero _ _ (sub_ne_zero.mpr hne)

/-- C7, witness: a two-pixel non-flat image normalizes to the exact values
0 and 1. -/
theorem C7_witness :
    windowSizeNormalize [[1, 2]] =
      Except.ok (([[1, 2]] : List (List ℚ)).map fun row => row.map fun v =>
        FVal.fin ((v - imageMin [[1, 2]]) /
          (imageMax [[1, 2]] - imageMin [[1, 2]]))) :=
  (C7_amended [[1, 2]] 1 [2] (by norm_num)).2 (by norm_num [imageMax, imageMin])

lemma arange_singleton (L s : ℕ) (hs : 0 < s) (hL : L < s) :
    arange (L + 1) s = [0] := by
  rw [arange, if_neg (Nat.pos_iff_ne_zero.mp hs)]
  have h1 : L + 1 + s - 1 = L + s := by omega
  rw [h1, Nat.add_div_right _ hs, Nat.div_eq_of_lt hL]
  rw [show (0 + 1 : ℕ) = 1 from rfl, List.range_succ, List.range_zero]
  simp

lemma arange_get_one (L s : ℕ) (hs : 0 < s) (hsL : s ≤ L) :
    (arange (L + 1) s).get? 1 = some s := by
  rw [arange, if_neg (Nat.pos_iff_ne_zero.mp hs), List.get?_eq_getElem?,
    List.getElem?_map]
  have h1 : L + 1 + s - 1 = L + s := by omega
  have h2 : 1 < (L + s) / s := by
    have hdiv : 1 ≤ L / s := (Nat.one_le_div_iff hs).mpr hsL
    rw [Nat.add_div_right _ hs]
    omega
  rw [h1, List.getElem?_range h2]
  simp

lemma arange_succ_eq_iff (L s t : ℕ) (hs : 0 < s) (ht : 0 < t) :
    arange (L + 1) s = arange (L + 1) t ↔ s = t ∨ L < min s t := by
  constructor
  · intro h
    have hlen := congrArg List.length h
    rw [arange_length _ _ hs, arange_length _ _ ht] at hlen
    have h1 : L + 1 + s - 1 = L + s := by omega
    have h2 : L + 1 + t - 1 = L + t := by omega
    rw [h1, h2, Nat.add_div_right _ hs, Nat.add_div_right _ ht] at hlen
    by_cases hLs : L < s
    · have hds : L / s = 0 := Nat.div_eq_of_lt hLs
      have hdt : L / t = 0 := by omega
      have hLt : L < t := by
        by_contra hc
        push_neg at hc
        have : 1 ≤ L / t := (Nat.one_le_div_iff ht).mpr hc
        omega
      exact Or.inr (lt_min hLs hLt)
    · push_neg at hLs
      have hdt : 1 ≤ L / t := by
        have : 1 ≤ L / s := (Nat.one_le_div_iff hs).mpr hLs
        omega
      have htL : t ≤ L := (Nat.one_le_div_iff ht).mp hdt
      have hgs := arange_get_one L s hs hLs
      have hgt := arange_get_one L t ht htL
      rw [h, hgt] at hgs
      exact Or.inl (Option.some.inj hgs).symm
  · rintro (rfl | hmin)
    · rfl
    · rw [arange_singleton L s hs (lt_min_iff.mp hmin).1,
        arange_singleton L t ht (lt_min_iff.mp hmin).2]

/-- C10, counterexample: with geometry image 8x8, window 8x8, step_x 1 and
step_y 2, the recomputed geometry of build_clean_image coincides with the
extraction geometry (both have the single origin 0 on each axis) even
though win_step_x differs from win_step_y, refuting the claim that they
coincide only when the two steps are equal. -/
theorem C10_counterexample :
    buildCleanImageYSteps ⟨8, 8, 8, 8, 1, 2⟩ =
      doWindowingYSteps ⟨8, 8, 8, 8, 1, 2⟩ ∧
    buildCleanImageXSteps ⟨8, 8, 8, 8, 1, 2⟩ =
      doWindowingXSteps ⟨8, 8, 8, 8, 1, 2⟩ ∧
    (⟨8, 8, 8, 8, 1, 2⟩ : WinAttrs).win_step_x ≠
      (⟨8, 8, 8, 8, 1, 2⟩ : WinAttrs).win_step_y := by
  refine ⟨by decide, by decide, by decide⟩

/-- C10, amended: build_clean_image (and clean_and_build) read the vertical
step from the persisted win_step_x attribute, so the recomputed y origins
step by win_step_x; the horizontal origins always agree, and the vertical
origins agree exactly when win_step_x equals win_step_y or the y range is
too short for a second origin under either step. -/
theorem C10_amended (a : WinAttrs) (hsx : 0 < a.win_step_x)
    (hsy : 0 < a.win_step_y) (hw : a.win_y ≤ a.image_y) :
    buildCleanImageXSteps a = doWindowingXSteps a ∧
    (buildCleanImageYSteps a = doWindowingYSteps a ↔
      a.win_step_x = a.win_step_y ∨
        a.image_y - a.win_y < min a.win_step_x a.win_step_y) := by
  refine ⟨rfl, ?_⟩
  have h1 : a.image_y + 1 - a.win_y = a.image_y - a.win_y + 1 := by omega
  rw [buildCleanImageYSteps, doWindowingYSteps, h1]
  exact arange_succ_eq_iff (a.image_y - a.win_y) _ _ hsx hsy

/-- C10, witness: with equal steps the recomputed vertical origins match
the extraction origins. -/
theorem C10_witness :
    buildCleanImageYSteps ⟨8, 8, 4, 4, 2, 2⟩ =
      doWindowingYSteps ⟨8, 8, 4, 4, 2, 2⟩ :=
  ((C10_amended ⟨8, 8, 4, 4, 2, 2⟩ (by norm_num) (by norm_num)
    (by norm_num)).2).mpr (Or.inl rfl)

lemma winPosMat_getElem (xs ys : List ℕ) :
    ∀ (i j : ℕ), i < xs.length → j < ys.length →
      (winPosMat xs ys)[i * ys.length + j]? =
        some (xs.getD i 0, ys.getD j 0) := by
  induction xs with
  | nil => intro i j hi _; exact absurd hi (Nat.not_lt_zero i)
  | cons x xst ih =>
    intro i j hi hj
    rw [winPosMat, List.flatMap_cons]
    cases i with
    | zero =>
      have hjlen : j < (List.map (fun y => (x, y)) ys).length := by
        rw [List.length_map]; exact hj
      rw [Nat.zero_mul, Nat.zero_add, List.getElem?_append_left hjlen,
        List.getElem?_map, List.getElem?_eq_getElem hj]
      simp [List.getD_eq_getElem?_getD, List.getElem?_eq_getElem hj]
    | succ ip =>
      have hidx : (ip + 1) * ys.length + j =
          (List.map (fun y => (x, y)) ys).length + (ip * ys.length + j) := by
        rw [List.length_map]
        ring
      rw [hidx, List.getElem?_append_right (Nat.le_add_right _ _),
        Nat.add_sub_cancel_left]
      rw [← winPosMat]
      rw [ih ip j (Nat.lt_of_succ_lt_succ hi) hj]
      simp

lemma zip_replicate_right (xs : List ℕ) (y : ℕ) :
    xs.zip (List.replicate xs.length y) = xs.map fun x => (x, y) := by
  induction xs with
  | nil => rfl
  | cons a t ih =>
    rw [List.length_cons, List.replicate_succ, List.zip_cons_cons, ih,
      List.map_cons]

lemma tile_zip_repeat (xs : List ℕ) :
    ∀ ys : List ℕ,
      (tileList xs ys.length).zip (repeatEach ys xs.length) =
        ys.flatMap fun y => xs.map fun x => (x, y) := by
  intro ys
  induction ys with
  | nil => rfl
  | cons y t ih =>
    rw [List.length_cons, tileList, repeatEach, List.flatMap_cons,
      List.zip_append (by rw [List.length_replicate]), zip_replicate_right,
      ← repeatEach, ih, List.flatMap_cons]

lemma winPosMat_swap (xs ys : List ℕ) :
    (winPosMat ys xs).map Prod.swap =
      ys.flatMap fun y => xs.map fun x => (x, y) := by
  rw [winPosMat, List.map_flatMap]
  simp [List.map_map, Function.comp_def, Prod.swap]

/-- C1, counterexample: for the 8x8 image with window 4 and step 2 the
position sequence build_clean_image iterates over differs from the
sequence do_windowing persisted (already at index 1: build visits (2,0)
where the persisted order has (0,2)). -/
theorem C1_counterexample :
    buildCleanImagePositions 8 8 4 4 2 2 ≠
      some (doWindowingPositions 8 8 4 4 2 2) := by
  decide

/-- C1, amended: do_windowing persists positions in x-major order (the
entry at index i*ny+j is the pair of the i-th x origin and the j-th y
origin); the batched reconstruction paths consume the persisted sequence,
but build_clean_image recomputes positions in the transposed, y-major
order: its sequence is the elementwise swap of the position matrix built
with the axes exchanged, which differs from the persisted sequence as soon
as both axes have at least two origins. -/
theorem C1_amended (imX imY winX winY sx sy i j : ℕ)
    (hlen : (stepsList imX winX sx).length = (stepsList imY winY sy).length)
    (hi : i < (stepsList imX winX sx).length)
    (hj : j < (stepsList imY winY sy).length) :
    buildCleanImagePositions imX imY winX winY sx sy =
      some ((winPosMat (stepsList imY winY sy)
        (stepsList imX winX sx)).map Prod.swap) ∧
    (doWindowingPositions imX imY winX winY sx sy)[i *
        (stepsList imY winY sy).length + j]? =
      some ((stepsList imX winX sx).getD i 0,
        (stepsList imY winY sy).getD j 0) := by
  constructor
  · simp only [buildCleanImagePositions]
    rw [if_pos hlen]
    refine congrArg some ?_
    rw [winPosMat_swap, hlen]
    have ht := tile_zip_repeat (stepsList imX winX sx) (stepsList imY winY sy)
    rw [hlen] at ht
    exact ht
  · exact winPosMat_getElem (stepsList imX winX sx) (stepsList imY winY sy)
      i j hi hj

/-- C1, witness: at the concrete 8x8 geometry with window 4 and step 2 the
amended characterization holds, with index 1*3+2 of the persisted sequence
holding the pair of x origin 2 and y origin 4. -/
theorem C1_witness :
    buildCleanImagePositions 8 8 4 4 2 2 =
      some ((winPosMat (stepsList 8 4 2) (stepsList 8 4 2)).map Prod.swap) ∧
    (doWindowingPositions 8 8 4 4 2 2)[1 * (stepsList 8 4 2).length + 2]? =
      some ((stepsList 8 4 2).getD 1 0, (stepsList 8 4 2).getD 2 0) :=
  C1_amended 8 8 4 4 2 2 1 2 rfl (by decide) (by decide)

lemma batchList_cover (n : ℕ) (bs : ℤ) (hbs : 1 ≤ bs) (i : ℕ) (hi : i < n) :
    ∃ b ∈ batchList n bs, b.1 ≤ (i : ℤ) ∧ (i : ℤ) < b.2 := by
  have hbs0 : 0 < bs := hbs
  have hd : Int.fdiv (n : ℤ) bs = (n : ℤ) / bs :=
    Int.fdiv_eq_ediv _ (le_of_lt hbs0)
  have hd0 : 0 ≤ (n : ℤ) / bs := Int.ediv_nonneg (Int.ofNat_nonneg n)
    (le_of_lt hbs0)
  have hmz : (((Int.fdiv (n : ℤ) bs).toNat : ℕ) : ℤ) = (n : ℤ) / bs := by
    rw [hd, Int.toNat_of_nonneg hd0]
  rw [batchList]
  by_cases hcase : (i : ℤ) < ((n : ℤ) / bs) * bs
  · have hq0 : 0 ≤ (i : ℤ) / bs := Int.ediv_nonneg (Int.ofNat_nonneg i)
      (le_of_lt hbs0)
    have hql : ((i : ℤ) / bs) * bs ≤ (i : ℤ) :=
      Int.ediv_mul_le (i : ℤ) (ne_of_gt hbs0)
    have hqu : (i : ℤ) < ((i : ℤ) / bs + 1) * bs :=
      Int.lt_ediv_add_one_mul_self _ hbs0
    have hqd : (i : ℤ) / bs < (n : ℤ) / bs :=
      (Int.ediv_lt_iff_lt_mul hbs0).mpr hcase
    have hqcast : (Int.ofNat ((i : ℤ) / bs).toNat : ℤ) = (i : ℤ) / bs := by
      simpa using Int.toNat_of_nonneg hq0
    have hqtm : ((i : ℤ) / bs).toNat < (Int.fdiv (n : ℤ) bs).toNat := by omega
    have hmem : (((i : ℤ) / bs) * bs, ((i : ℤ) / bs + 1) * bs) ∈
        (List.range (Int.fdiv (n : ℤ) bs).toNat).map
          fun ip => (Int.ofNat ip * bs, (Int.ofNat ip + 1) * bs) := by
      refine List.mem_map.mpr ⟨((i : ℤ) / bs).toNat, List.mem_range.mpr hqtm, ?_⟩
      rw [hqcast]
    refine ⟨(((i : ℤ) / bs) * bs, ((i : ℤ) / bs + 1) * bs), ?_, hql, hqu⟩
    by_cases hrem : (((Int.fdiv (n : ℤ) bs).toNat : ℕ) : ℤ) * bs < (n : ℤ)
    · rw [if_pos hrem]
      exact List.mem_append_left _ hmem
    · rw [if_neg hrem]
      exact hmem
  · push_neg at hcase
    have hin : (i : ℤ) < (n : ℤ) := by exact_mod_cast hi
    have hrem : (((Int.fdiv (n : ℤ) bs).toNat : ℕ) : ℤ) * bs < (n : ℤ) := by
      rw [hmz]
      omega
    rw [if_pos hrem]
    refine ⟨((((Int.fdiv (n : ℤ) bs).toNat : ℕ) : ℤ) * bs, (n : ℤ)),
      List.mem_append_right _ (List.mem_singleton.mpr rfl), ?_, hin⟩
    rw [hmz]
    exact hcase

lemma foldl_writeBatch {n k p : ℕ} (U : Fin n → Fin k → ℚ) (S : Fin k → ℚ)
    (V : Fin k → Fin p → ℚ) (L : List (ℤ × ℤ)) :
    ∀ (st : Fin n → Fin p → ℚ) (i : Fin n) (j : Fin p),
      (st i j = cleanWindowsDirect U S V i j ∨
        ∃ b ∈ L, b.1 ≤ (i : ℤ) ∧ (i : ℤ) < b.2) →
      (L.foldl (writeBatch U S V) st) i j = cleanWindowsDirect U S V i j := by
  induction L with
  | nil =>
    intro st i j h
    rcases h with h | ⟨b, hb, _⟩
    · exact h
    · cases hb
  | cons b t ih =>
    intro st i j h
    rw [List.foldl_cons]
    by_cases hcov : b.1 ≤ (i : ℤ) ∧ (i : ℤ) < b.2
    · apply ih
      left
      show (if b.1 ≤ (i : ℤ) ∧ (i : ℤ) < b.2 then
        ∑ c, U i c * (S c * V c j) else st i j) = _
      rw [if_pos hcov]
      rfl
    · apply ih
      rcases h with h | ⟨b2, hb2, hcov2⟩
      · left
        show (if b.1 ≤ (i : ℤ) ∧ (i : ℤ) < b.2 then
          ∑ c, U i c * (S c * V c j) else st i j) = _
        rw [if_neg hcov]
        exact h
      · rcases List.mem_cons.mp hb2 with heq | hmem
        · exact absurd (heq ▸ hcov2) hcov
        · right
          exact ⟨b2, hmem, hcov2⟩

/-- C8: reconstructing cleaned windows batch by batch from the
pre-multiplied matrix diag(S) V, over any fixed batch size of at least one
window, produces exactly the same window matrix as the single unbatched
product U diag(S) V. -/
theorem C8_batched_eq_direct {n k p : ℕ} (U : Fin n → Fin k → ℚ)
    (S : Fin k → ℚ) (V : Fin k → Fin p → ℚ) (bs : ℤ) (hbs : 1 ≤ bs) :
    cleanWindowsIncremental U S V bs =
      Except.ok (cleanWindowsDirect U S V) := by
  rw [cleanWindowsIncremental, genBatches, if_neg (by omega : ¬bs = 0)]
  simp only [Except.map]
  refine congrArg Except.ok ?_
  funext i j
  exact foldl_writeBatch U S V (batchList n bs) _ i j
    (Or.inr (batchList_cover n bs hbs i i.isLt))

/-- C8, witness: a concrete 3-window, 2-component, 2-pixel factorization
reconstructed in batches of 2 equals the unbatched product. -/
theorem C8_witness :
    @cleanWindowsIncremental 3 2 2 (fun _ _ => 1) (fun _ => 1) (fun _ _ => 1) 2 =
      Except.ok (@cleanWindowsDirect 3 2 2 (fun _ _ => 1) (fun _ => 1)
        (fun _ _ => 1)) :=
  C8_batched_eq_direct _ _ _ 2 (by norm_num)

end Pycro
